import Mathlib

/-!
# Verification of the cockpit experiment-scheduling core

Shallow embedding of the experiment scheduling code of the cockpit
repository (`cockpit/experiment/__init__.py`, `cockpit/experiment/zStack.py`,
`cockpit/experiment/STORM.py`, `cockpit/experiment/rotatorSweep.py`,
`cockpit/devices/microscopeDeformableMirror.py`) together with proofs about
the embedded definitions.

Modelling conventions:
* Python `float` and `decimal.Decimal` time/position values are modelled as
  exact rationals (`ℚ`); every numeric constant that appears in the code
  (`1e-10`, `.001`, `1e-6`, `0.2`, ...) is exactly representable.
* Python `int` is modelled as `ℤ` (or `ℕ` where the source guarantees a
  count); Python exceptions are modelled with `Except`.
* External collaborator capabilities that live in files that are not part of
  the sources here (`cockpit/experiment/experiment.py` and
  `cockpit/experiment/actionTable.py`: `getMovementTime`, `expose`,
  `getTimeWhenCameraCanExpose`, `ActionTable.addAction`/`addToggle`/
  `clearBadEntries`) are modelled from the spec; each such definition
  carries a doc comment saying so.
-/

namespace Cockpit

/-! ## Definitions -/

/-! ### Z-position computation

Embedding of `compute_z_positions` from `cockpit/experiment/__init__.py`:

```python
def compute_z_positions(start, stack_height, step):
    if stack_height < 0:
        raise ValueError("'stack_height' must be non-negative")
    try:
        num_slices = math.ceil(stack_height / abs(float(step))) +1
    except ZeroDivisionError:
        if stack_height != 0: # we can ignore the error if stack is zero
            raise ValueError("'step' must be non-zero")
        num_slices = 1
    return [start + i * step for i in range(int(num_slices))]
```

The `ZeroDivisionError` is raised exactly when `step == 0`.
-/

inductive ZError where
  | invalidHeight
  | invalidStep
  deriving DecidableEq

def compute_z_positions (start stack_height step : ℚ) : Except ZError (List ℚ) :=
  if stack_height < 0 then
    Except.error ZError.invalidHeight
  else if step = 0 then
    -- `stack_height / abs(step)` raises `ZeroDivisionError`
    if stack_height ≠ 0 then
      Except.error ZError.invalidStep
    else
      -- `num_slices = 1`
      Except.ok ((List.range 1).map fun i : ℕ => start + (i : ℚ) * step)
  else
    let num_slices : ℤ := ⌈stack_height / |step|⌉ + 1
    Except.ok ((List.range num_slices.toNat).map fun i : ℕ => start + (i : ℚ) * step)

/-! ### Experiment generators

`ZStackExperiment.generateActions` (`cockpit/experiment/zStack.py`),
`STORM.generateActions` (`cockpit/experiment/STORM.py`) and
`RotatorSweepExperiment.generateActions` (`cockpit/experiment/rotatorSweep.py`).

A generator builds an action table.  The embedded generators record, in
order, the move/hold actions the generator itself inserts for its stage
handler (`table.addAction(time, zPositioner/lineHandler, target)`), the
times at which the `expose` collaborator is called (the trigger/illumination
actions for one exposure group are inserted at that time by `expose`), and
the computed `cameraReadyTime`.
-/

/-- Modelled from the spec: the external collaborator capabilities consumed by
the generators.  `movementTime` is `handler.getMovementTime(from, to)`
returning `(motionTime, stabilizationTime)`; `expose` is
`Experiment.expose(curTime, group, table) -> newCurTime`, which inserts the
camera/light actions of one exposure group and returns the time at which the
acquisition completes; `camReady` is
`Experiment.getTimeWhenCameraCanExpose(table, camera)`, the camera-readiness
model (its table argument is fixed at the single call site, so it is
modelled as a function of the camera alone).  Cameras are identified by `ℕ`;
the type `E` of one exposure group is a parameter. -/
structure Env (E : Type) where
  movementTime : ℚ → ℚ → ℚ × ℚ
  expose : ℚ → E → ℚ
  camReady : ℕ → ℚ

/-- The tie-breaking epsilon `decimal.Decimal('1e-10')` of zStack.py and
STORM.py. -/
def zEpsilon : ℚ := 1 / 10 ^ 10

/-- The tie-breaking epsilon `decimal.Decimal('.001')` of rotatorSweep.py. -/
def rotatorEpsilon : ℚ := 1 / 1000

/-- Loop state of a generator: `curTime`, `prevAltitude`, the stage move/hold
actions inserted so far and the `expose` call times so far. -/
structure GenState where
  curTime : ℚ
  prevAltitude : Option ℚ
  moves : List (ℚ × ℚ)
  calls : List ℚ

/-- Result of a generator run. -/
structure GenOut where
  moves : List (ℚ × ℚ)
  calls : List ℚ
  cameraReadyTime : ℚ

/-- The inner exposure loop shared by zStack.py and rotatorSweep.py:
`for exposure in self.exposures: curTime = self.expose(curTime, exposure,
table); curTime += eps`.  Returns the final time and the accumulated list of
`expose` call times. -/
def exposeFold {E : Type} (env : Env E) (eps : ℚ) (exposures : List E)
    (t0 : ℚ) (calls0 : List ℚ) : ℚ × List ℚ :=
  exposures.foldl (fun tc e => (env.expose tc.1 e + eps, tc.2 ++ [tc.1])) (t0, calls0)

/-- The `cameraReadyTime` double loop shared by zStack.py and STORM.py:
`for group in groups: for camera in group.cameras: cameraReadyTime =
max(cameraReadyTime, self.getTimeWhenCameraCanExpose(table, camera))`,
starting from `cameraReadyTime = 0`. -/
def camReadyFold (camReady : ℕ → ℚ) (groups : List (List ℕ)) : ℚ :=
  groups.foldl (fun acc cams => cams.foldl (fun a c => max a (camReady c)) acc) 0

/-- One iteration of the zStack.py position loop: move to the target (the
move action is inserted at `curTime + motionTime`), advance past the
stabilization time, run every exposure group, then hold the stage flat at
the target. -/
def zStackStep (env : Env (List ℕ)) (exposures : List (List ℕ))
    (s : GenState) (zTarget : ℚ) : GenState :=
  let mtst := match s.prevAltitude with
    | none => ((0 : ℚ), (0 : ℚ))
    | some prev => env.movementTime prev zTarget
  let t1 := s.curTime + mtst.1
  let t2 := t1 + mtst.2
  let tc := exposeFold env zEpsilon exposures t2 s.calls
  { curTime := tc.1
    prevAltitude := some zTarget
    moves := s.moves ++ [(t1, zTarget)] ++ [(tc.1, zTarget)]
    calls := tc.2 }

/-- `ZStackExperiment.generateActions`.  An exposure group is its list of
cameras.  After the position loop: move back to `z_handler_positions[0]`
(computing the movement time from `z_handler_positions[-1]`), then insert the
final hold at `max(curTime + stabilizationTime, cameraReadyTime)`, where
`cameraReadyTime` is only computed when `numReps > 1`.  Python raises
`IndexError` on an empty position list; `headD`/`getLastD` defaults are
unreachable under the nonempty hypothesis used in the theorems. -/
def zStackGen (env : Env (List ℕ)) (positions : List ℚ)
    (exposures : List (List ℕ)) (numReps : ℕ) : GenOut :=
  let s := positions.foldl (zStackStep env exposures)
    { curTime := 0, prevAltitude := none, moves := [], calls := [] }
  let mtst := env.movementTime (positions.getLastD 0) (positions.headD 0)
  let returnTime := s.curTime + mtst.1
  let ready := if 1 < numReps then camReadyFold env.camReady exposures else 0
  { moves := s.moves ++ [(returnTime, positions.headD 0)]
      ++ [(max (returnTime + mtst.2) ready, positions.headD 0)]
    calls := s.calls
    cameraReadyTime := ready }

/-- A STORM sequence row `(light, exposureLen, camera)`. -/
abbrev StormSeq := ℕ × ℕ × ℕ

/-- The body of STORM.py's innermost loop: expose one sequence, advance the
time by the epsilon, then hold the stage at the target. -/
def stormInnerStep (env : Env StormSeq) (target : ℚ)
    (st : ℚ × List (ℚ × ℚ) × List ℚ) (seq : StormSeq) :
    ℚ × List (ℚ × ℚ) × List ℚ :=
  let tNew := env.expose st.1 seq + zEpsilon
  (tNew, st.2.1 ++ [(tNew, target)], st.2.2 ++ [st.1])

/-- One iteration of STORM.py's Z loop: `targetAltitude = sliceHeight *
zIndex`; insert the move at `curTime + motionTime`, advance past motion and
stabilization, then run `repetitions` passes over the sequences. -/
def stormStep (env : Env StormSeq) (repetitions : ℕ) (sequences : List StormSeq)
    (sliceHeight : ℚ) (s : GenState) (zIndex : ℕ) : GenState :=
  let target := sliceHeight * (zIndex : ℚ)
  let mtst := match s.prevAltitude with
    | none => ((0 : ℚ), (0 : ℚ))
    | some prev => env.movementTime prev target
  let inner := (List.range repetitions).foldl
    (fun st _ => sequences.foldl (stormInnerStep env target) st)
    (s.curTime + mtst.1 + mtst.2, s.moves ++ [(s.curTime + mtst.1, target)], s.calls)
  { curTime := inner.1
    prevAltitude := some target
    moves := inner.2.1
    calls := inner.2.2 }

/-- `STORM.generateActions`.  `numZSlices = int(math.ceil(zHeight /
sliceHeight))`, incremented when `zHeight > 1e-6`; after the Z loop the
stage is moved back (movement time computed from `zHeight` to `0`) and the
final hold is inserted at `max(curTime + stabilizationTime,
cameraReadyTime)`, with `cameraReadyTime` only computed when `numReps > 1`
(over `self.exposureSettings`, modelled by its camera groups). -/
def stormGen (env : Env StormSeq) (zHeight sliceHeight : ℚ) (repetitions : ℕ)
    (sequences : List StormSeq) (numReps : ℕ)
    (exposureSettings : List (List ℕ)) : GenOut :=
  let numZSlices : ℤ := ⌈zHeight / sliceHeight⌉ + (if 1 / 10 ^ 6 < zHeight then 1 else 0)
  let s := (List.range numZSlices.toNat).foldl
    (stormStep env repetitions sequences sliceHeight)
    { curTime := 0, prevAltitude := none, moves := [], calls := [] }
  let mtst := env.movementTime zHeight 0
  let returnTime := s.curTime + mtst.1
  let ready := if 1 < numReps then camReadyFold env.camReady exposureSettings else 0
  { moves := s.moves ++ [(returnTime, 0)] ++ [(max (returnTime + mtst.2) ready, 0)]
    calls := s.calls
    cameraReadyTime := ready }

/-- One iteration of rotatorSweep.py's voltage loop: insert the move at the
current time, advance by the settling time, run every exposure group, hold
the rotator at the target, then advance by the settling time again. -/
def rotatorStep (env : Env ℕ) (vStart dv settlingTime : ℚ) (exposures : List ℕ)
    (s : ℚ × List (ℚ × ℚ) × List ℚ) (step : ℕ) : ℚ × List (ℚ × ℚ) × List ℚ :=
  let vTarget := vStart + (step : ℚ) * dv
  let tc := exposeFold env rotatorEpsilon exposures (s.1 + settlingTime) s.2.2
  (tc.1 + settlingTime, s.2.1 ++ [(s.1, vTarget)] ++ [(tc.1, vTarget)], tc.2)

/-- `RotatorSweepExperiment.generateActions`.  `dv = (vLessThan - vStart) /
vSteps`; an exposure group is an opaque token. -/
def rotatorGen (env : Env ℕ) (vStart vLessThan : ℚ) (vSteps : ℕ)
    (settlingTime : ℚ) (exposures : List ℕ) : GenOut :=
  let dv := (vLessThan - vStart) / (vSteps : ℚ)
  let s := (List.range vSteps).foldl
    (rotatorStep env vStart dv settlingTime exposures) (0, [], [])
  { moves := s.2.1
    calls := s.2.2
    cameraReadyTime := 0 }

/-- A trivial environment, used to instantiate witnesses. -/
def trivialEnv (E : Type) : Env E :=
  { movementTime := fun _ _ => (0, 0), expose := fun t _ => t, camReady := fun _ => 0 }

/-! ### Deformable-mirror rewrite hook

`MicroscopeDeformableMirror.examineActions`
(`cockpit/devices/microscopeDeformableMirror.py`).  Handlers are identified
by `ℕ`; a table row is `(time, handler, payload)`.  The actuator-command
computation (`np.outer(...) + intercepts` and `self._proxy.queue_patterns`)
is a hardware side effect that never touches the table and is not modelled.
-/

/-- Action payload of a table row, as dispatched on by the runtime type
checks (`isinstance(action, float/int/tuple)`) in `examineActions`.  Python
`str` payloads are carried around but their characters are never inspected
by the hook, so their contents are an opaque token. -/
inductive Payload where
  | num (x : ℚ)        -- Python float: an analog move target
  | idx (n : ℤ)        -- Python int: a target index into the detected cycle
  | tup (d : List ℚ)   -- Python tuple: remote-focus calibration marker
  | pstr (s : ℕ)       -- Python str: control message (contents opaque)
  | trigger            -- trigger rows appended through table.addToggle
  deriving DecidableEq

abbrev Row := ℚ × ℕ × Payload

/-- Python `itertools.groupby` key extraction over the payload list:
collapse runs of consecutive equal payloads to a single element. -/
def dedupAdj : List Payload → List Payload
  | [] => []
  | [a] => [a]
  | a :: b :: rest => if a = b then dedupAdj (b :: rest) else a :: dedupAdj (b :: rest)

/-- `reducedParams = [p[0] for p in groupby(patternParams) if
isinstance(p[0], float)]`. -/
def reducedOf (ps : List Payload) : List ℚ :=
  (dedupAdj ps).filterMap fun p =>
    match p with
    | Payload.num x => some x
    | _ => none

/-- The periodic-cycle scan:

```python
sequenceLength = len(reducedParams)
for length in range(2, len(reducedParams) // 2):
    if reducedParams[0:length] == reducedParams[length : 2 * length]:
        sequenceLength = length
        break
```

`range(2, n // 2)` is the list `[2, ..., n // 2 - 1]`, which is
`List.range' 2 (n / 2 - 2)`; slices clamp exactly as `take`/`drop` do. -/
def seqLenOf (rp : List ℚ) : ℕ :=
  match (List.range' 2 (rp.length / 2 - 2)).find?
      (fun L => rp.take L == (rp.drop L).take L) with
  | some L => L
  | none => rp.length

/-- The trigger count for an integer target-index payload:

```python
elif isinstance(action, int):
    if action >= lastIndex:
        numTriggers = action - lastIndex
    else:
        numTriggers = sequenceLength - lastIndex - action
```
-/
def numTriggersInt (sequenceLength lastIndex action : ℤ) : ℤ :=
  if lastIndex ≤ action then action - lastIndex
  else sequenceLength - lastIndex - action

/-- Python list indexing `l[i]`, including negative-index wrap-around;
`none` is an `IndexError`. -/
def pyGet (l : List ℚ) (i : ℤ) : Option ℚ :=
  if 0 ≤ i then l.get? i.toNat
  else if 0 ≤ (l.length : ℤ) + i then l.get? ((l.length : ℤ) + i).toNat
  else none

inductive PyErr where
  | indexError
  deriving DecidableEq

/-- The `numTriggers` dispatch of the rewrite loop.  A float payload equal to
`sequence[lastIndex]` gets zero triggers, a float payload different from it
gets one; an int payload uses `numTriggersInt`; every other payload gets
zero triggers (`else: numTriggers = 0`).  `sequence[lastIndex]` is only
evaluated for float payloads (Python's `and` short-circuits). -/
def numTriggersOf (sequence : List ℚ) (sequenceLength lastIndex : ℤ) :
    Payload → Except PyErr ℤ
  | Payload.num x =>
      match pyGet sequence lastIndex with
      | none => Except.error PyErr.indexError
      | some v => Except.ok (if x ≠ v then 1 else 0)
  | Payload.idx n => Except.ok (numTriggersInt sequenceLength lastIndex n)
  | _ => Except.ok 0

/-- Tombstoning: `table[i] = None` for every device row except tuple
payloads (`if isinstance(action, tuple): pass`). -/
def keepRow (row : Row) : Option Row :=
  match row.2.2 with
  | Payload.tup _ => some row
  | _ => none

/-- The `lastIndex` wrap-around:

```python
lastIndex += numTriggers
if lastIndex >= sequenceLength:
    if sequenceLength == 0:
        pass
    else:
        lastIndex = lastIndex % sequenceLength
```
-/
def wrapIndex (sequenceLength lastIndex : ℤ) : ℤ :=
  if sequenceLength ≤ lastIndex then
    (if sequenceLength = 0 then lastIndex else lastIndex % sequenceLength)
  else lastIndex

/-- Modelled from the spec: `t = table.addToggle(t, handler)` inserts a
trigger row at `t` and returns `t + table.toggleTime`; the loop body then
adds `table.toggleTime` once more, so `k` chained toggles sit `2 *
toggleTime` apart.  Returns the appended rows and the final `t`. -/
def mkToggles (dm : ℕ) (toggleTime : ℚ) (t : ℚ) : ℕ → List Row × ℚ
  | 0 => ([], t)
  | k + 1 =>
      let rest := mkToggles dm toggleTime (t + 2 * toggleTime) k
      ((t, dm, Payload.trigger) :: rest.1, rest.2)

/-- The main rewrite loop `for i, (t, handler, action) in
enumerate(table.actions)` over the original rows (the spec: the hook "walks
the original table").  For each row, `t` is rebound to the row's time; a
device row is tombstoned unless it is a tuple, its trigger count is
computed, `numTriggers` toggles are chained from the row's time
(`range(numTriggers)` of a negative count is empty, hence `toNat`), and
`lastIndex` is advanced and wrapped.  Returns the processed original rows
(tombstones as `none`), the toggle rows appended by `addToggle`, and the
final value of `t`. -/
def rewriteLoop (dm : ℕ) (toggleTime : ℚ) (sequence : List ℚ)
    (sequenceLength : ℤ) :
    List Row → ℤ → ℚ → Except PyErr (List (Option Row) × List Row × ℚ)
  | [], _lastIndex, t => Except.ok ([], [], t)
  | (time, h, action) :: rest, lastIndex, _t =>
      if h = dm then
        match numTriggersOf sequence sequenceLength lastIndex action with
        | Except.error e => Except.error e
        | Except.ok numTriggers =>
            let tg := mkToggles dm toggleTime time numTriggers.toNat
            match rewriteLoop dm toggleTime sequence sequenceLength rest
                (wrapIndex sequenceLength (lastIndex + numTriggers)) tg.2 with
            | Except.error e => Except.error e
            | Except.ok (proc, tgs, tEnd) =>
                Except.ok (keepRow (time, h, action) :: proc, tg.1 ++ tgs, tEnd)
      else
        match rewriteLoop dm toggleTime sequence sequenceLength rest lastIndex time with
        | Except.error e => Except.error e
        | Except.ok (proc, tgs, tEnd) =>
            Except.ok (some (time, h, action) :: proc, tgs, tEnd)

/-- `MicroscopeDeformableMirror.examineActions`.  Extract the payloads of
the device's own rows; if there are none, return with the table unchanged.
Otherwise reduce them, detect the cycle, rewrite every row through
`rewriteLoop`, compact with `table.clearBadEntries()` (drop the tombstones),
and append 12 trailing flush toggles from the final `t`.  `addToggle` row
placement is modelled by appending (modelled from the spec; row order inside
the table does not matter to the claims below, the table is sorted by time
for playback). -/
def examineActions (dm : ℕ) (toggleTime : ℚ) (rows : List Row) :
    Except PyErr (List Row) :=
  let patternParams := (rows.filter fun r => r.2.1 == dm).map fun r => r.2.2
  if patternParams.isEmpty then Except.ok rows
  else
    let reducedParams := reducedOf patternParams
    let sequenceLength := seqLenOf reducedParams
    let sequence := reducedParams.take sequenceLength
    match rewriteLoop dm toggleTime sequence (sequenceLength : ℤ) rows 0 0 with
    | Except.error e => Except.error e
    | Except.ok (proc, tgs, tEnd) =>
        Except.ok ((proc.reduceOption ++ tgs) ++ (mkToggles dm toggleTime tEnd 12).1)

/-! ### The prototype ActionTable's interleave

`ActionTable.interleave` from `cockpit/experiment/__init__.py`:

```python
class ActionTable:
    def __init__(self):
        self._actions = []

    def interleave(self, other):
        for i in range(len(self._actions)):
            self._actions.insert(i*2 +2, other)
```
-/

/-- Elements of the prototype ActionTable's `_actions` list: an action, or —
what `interleave` actually inserts — another table object (`other` is the
whole table, of type `β`). -/
inductive TElem (α β : Type) where
  | action (a : α)
  | tableObj (t : β)
  deriving DecidableEq

def TElem.isAction {α β : Type} : TElem α β → Bool
  | TElem.action _ => true
  | TElem.tableObj _ => false

/-- Python `list.insert(pos, x)` for a non-negative position (clamps at the
end of the list). -/
def pyInsert {γ : Type} (l : List γ) (pos : ℕ) (x : γ) : List γ :=
  l.take pos ++ x :: l.drop pos

/-- `ActionTable.interleave`: `range(len(self._actions))` is evaluated once,
before the body mutates the list; each iteration inserts the *other table
object* at position `i*2 + 2`. -/
def interleave {α β : Type} (self : List (TElem α β)) (other : β) :
    List (TElem α β) :=
  (List.range self.length).foldl
    (fun acc i => pyInsert acc (i * 2 + 2) (TElem.tableObj other)) self

/-- Invariant used for the exposure-ordering claim: the list of recorded
`expose` call times is strictly increasing and every recorded time lies
strictly before the current time. -/
def callsInv (t : ℚ) (calls : List ℚ) : Prop :=
  calls.Chain' (· < ·) ∧ ∀ x ∈ calls, x < t

/-! ## Theorems -/

/-! ### Helper lemmas for the Z-position computation -/

theorem compute_z_positions_ok (start stack_height step : ℚ)
    (hh : 0 ≤ stack_height) (hs : step ≠ 0) :
    compute_z_positions start stack_height step =
      Except.ok ((List.range (⌈stack_height / |step|⌉ + 1).toNat).map
        fun i : ℕ => start + (i : ℚ) * step) := by
  unfold compute_z_positions
  rw [if_neg (by linarith), if_neg hs]

theorem compute_z_positions_example : compute_z_positions 3 1 (1/5) =
    Except.ok [3, 16/5, 17/5, 18/5, 19/5, 4] := by
  rw [compute_z_positions_ok 3 1 (1/5) (by norm_num) (by norm_num)]
  rw [show |(1:ℚ)/5| = 1/5 by norm_num, show (1:ℚ) / (1/5) = 5 by norm_num]
  rw [show ((5:ℚ) = ((5:ℤ):ℚ)) by norm_num, Int.ceil_intCast]
  rw [show ((5:ℤ) + 1).toNat = 6 from rfl]
  norm_num [List.range_succ]

theorem compute_z_positions_zero_height (start step : ℚ) :
    compute_z_positions start 0 step = Except.ok [start] := by
  unfold compute_z_positions
  split_ifs with h1 h2 h3 <;> simp_all <;> norm_num [List.range_succ]

/-! ### Z-position claims -/

/-- Claim C3: for every start, every positive stack height and every non-zero
step, `compute_z_positions` succeeds with a list of exactly
`⌈stackHeight/|step|⌉ + 1` elements whose `i`-th element is
`start + i * step` (a single multiply-and-add per element, exactly as in the
source), so the list is strictly increasing for positive step and strictly
decreasing for negative step; and `compute_z_positions 3.0 1.0 0.2` is
exactly `[3.0, 3.2, 3.4, 3.6, 3.8, 4.0]`. -/
theorem C3_compute_z_positions_spec :
    (∀ (start stack_height step : ℚ), 0 < stack_height → step ≠ 0 →
      ∃ l, compute_z_positions start stack_height step = Except.ok l ∧
        (l.length : ℤ) = ⌈stack_height / |step|⌉ + 1 ∧
        (∀ i : Fin l.length, l.get i = start + ((i : ℕ) : ℚ) * step) ∧
        (0 < step → l.Pairwise (· < ·)) ∧
        (step < 0 → l.Pairwise (· > ·))) ∧
    compute_z_positions 3 1 (1/5) = Except.ok [3, 16/5, 17/5, 18/5, 19/5, 4] := by
  constructor
  · intro start stack_height step hh hs
    have hpos : (0:ℤ) < ⌈stack_height / |step|⌉ + 1 := by
      have : (0:ℚ) < stack_height / |step| := by positivity
      have := Int.ceil_pos.mpr this
      omega
    refine ⟨_, compute_z_positions_ok start stack_height step hh.le hs, ?_, ?_, ?_, ?_⟩
    · simp [Int.toNat_of_nonneg hpos.le]
    · intro i
      simp [List.get_map, List.get_range]
    · intro hstep
      refine List.Pairwise.map _ ?_ (List.pairwise_lt_range _)
      intro a b hab
      have : (a:ℚ) < (b:ℚ) := by exact_mod_cast hab
      nlinarith
    · intro hstep
      refine List.Pairwise.map _ ?_ (List.pairwise_lt_range _)
      intro a b hab
      have : (a:ℚ) < (b:ℚ) := by exact_mod_cast hab
      nlinarith
  · exact compute_z_positions_example

/-- Witness for C3: the universally quantified part applied at the concrete
input `start = 3`, `stackHeight = 1`, `step = 1/5`. -/
theorem C3_compute_z_positions_spec_witness :
    0 < (1:ℚ) ∧ (1:ℚ)/5 ≠ 0 ∧
    ∃ l, compute_z_positions 3 1 (1/5) = Except.ok l ∧
      (l.length : ℤ) = ⌈(1:ℚ) / |(1:ℚ)/5|⌉ + 1 ∧
      (∀ i : Fin l.length, l.get i = 3 + ((i : ℕ) : ℚ) * (1/5)) ∧
      (0 < (1:ℚ)/5 → l.Pairwise (· < ·)) ∧
      ((1:ℚ)/5 < 0 → l.Pairwise (· > ·)) :=
  ⟨by norm_num, by norm_num,
    C3_compute_z_positions_spec.1 3 1 (1/5) (by norm_num) (by norm_num)⟩

/-- Claim C4: `compute_z_positions` fails with the invalid-height error
exactly when the stack height is negative; fails with the invalid-step error
exactly when the step is zero with a nonzero (non-negative) stack height;
and with stack height `0` it returns `[start]` for every start and every
step, including step `0`. -/
theorem C4_compute_z_positions_errors :
    ∀ (start stack_height step : ℚ),
      (compute_z_positions start stack_height step = Except.error ZError.invalidHeight
        ↔ stack_height < 0) ∧
      (compute_z_positions start stack_height step = Except.error ZError.invalidStep
        ↔ step = 0 ∧ stack_height ≠ 0 ∧ 0 ≤ stack_height) ∧
      (stack_height = 0 → compute_z_positions start stack_height step = Except.ok [start]) := by
  intro start stack_height step
  refine ⟨?_, ?_, ?_⟩
  · unfold compute_z_positions
    split_ifs with h1 h2 h3 <;> simp_all
  · unfold compute_z_positions
    split_ifs with h1 h2 h3 <;> simp_all
  · intro h
    subst h
    exact compute_z_positions_zero_height start step

/-- Witness for C4: the error characterisation applied at the inputs of the
spec's own test vector (`(0,-1,1)` height error, `(0,1,0)` step error,
`(1,0,0)` and `(1,0,1/5)` degenerate 2D cases). -/
theorem C4_compute_z_positions_errors_witness :
    compute_z_positions 0 (-1) 1 = Except.error ZError.invalidHeight ∧
    compute_z_positions 0 1 0 = Except.error ZError.invalidStep ∧
    compute_z_positions 1 0 0 = Except.ok [1] ∧
    compute_z_positions 1 0 (1/5) = Except.ok [1] :=
  ⟨(C4_compute_z_positions_errors 0 (-1) 1).1.mpr (by norm_num),
   (C4_compute_z_positions_errors 0 1 0).2.1.mpr (by norm_num),
   (C4_compute_z_positions_errors 1 0 0).2.2 rfl,
   (C4_compute_z_positions_errors 1 0 (1/5)).2.2 rfl⟩

/-! ### Helper lemmas for the generators -/

theorem camReadyFold_eq (f : ℕ → ℚ) (groups : List (List ℕ)) :
    camReadyFold f groups = (groups.flatten.map f).foldl max 0 := by
  rw [List.foldl_map, List.foldl_flatten]
  rfl

theorem callsInv_mono {t t' : ℚ} (h : t ≤ t') {calls : List ℚ} :
    callsInv t calls → callsInv t' calls :=
  fun hc => ⟨hc.1, fun x hx => lt_of_lt_of_le (hc.2 x hx) h⟩

theorem callsInv_append {t t' : ℚ} {calls : List ℚ} (ht : t < t')
    (h : callsInv t calls) : callsInv t' (calls ++ [t]) := by
  obtain ⟨hc, hb⟩ := h
  constructor
  · rw [List.chain'_append]
    refine ⟨hc, List.chain'_singleton t, ?_⟩
    intro x hx y hy
    simp only [List.head?_cons, Option.mem_def, Option.some.injEq] at hy
    subst hy
    exact hb x (List.mem_of_mem_getLast? hx)
  · intro x hx
    rcases List.mem_append.mp hx with h' | h'
    · exact lt_trans (hb x h') ht
    · simp only [List.mem_singleton] at h'
      subst h'
      exact ht

theorem foldl_inv {σ γ : Type _} (P : σ → Prop) (f : σ → γ → σ) (l : List γ) (s : σ)
    (h0 : P s) (hf : ∀ s' a, P s' → P (f s' a)) : P (l.foldl f s) := by
  induction l generalizing s with
  | nil => exact h0
  | cons a l ih => exact ih _ (hf _ _ h0)

theorem exposeFold_inv {E : Type} (env : Env E) (eps : ℚ) (heps : 0 < eps)
    (hexp : ∀ t e, t ≤ env.expose t e) (exposures : List E) :
    ∀ t0 calls0, callsInv t0 calls0 →
      callsInv (exposeFold env eps exposures t0 calls0).1
        (exposeFold env eps exposures t0 calls0).2 := by
  induction exposures with
  | nil => intro t0 calls0 h; simpa [exposeFold] using h
  | cons e es ih =>
    intro t0 calls0 h
    have step : callsInv (env.expose t0 e + eps) (calls0 ++ [t0]) :=
      callsInv_append (lt_of_le_of_lt (hexp t0 e) (by linarith)) h
    simpa [exposeFold] using ih _ _ step

theorem zStackStep_inv (env : Env (List ℕ)) (exposures : List (List ℕ))
    (hexp : ∀ t e, t ≤ env.expose t e)
    (hm : ∀ a b, 0 ≤ (env.movementTime a b).1 ∧ 0 ≤ (env.movementTime a b).2)
    (s : GenState) (z : ℚ) (h : callsInv s.curTime s.calls) :
    callsInv (zStackStep env exposures s z).curTime
      (zStackStep env exposures s z).calls := by
  unfold zStackStep
  rcases s with ⟨t, prev, moves, calls⟩
  rcases prev with _ | p
  · simp only
    exact exposeFold_inv env zEpsilon (by norm_num [zEpsilon]) hexp exposures _ _
      (callsInv_mono (by simp) h)
  · simp only
    exact exposeFold_inv env zEpsilon (by norm_num [zEpsilon]) hexp exposures _ _
      (callsInv_mono (by have := hm p z; simp; linarith) h)

theorem zStackGen_calls_chain (env : Env (List ℕ)) (positions : List ℚ)
    (exposures : List (List ℕ)) (numReps : ℕ)
    (hexp : ∀ t e, t ≤ env.expose t e)
    (hm : ∀ a b, 0 ≤ (env.movementTime a b).1 ∧ 0 ≤ (env.movementTime a b).2) :
    (zStackGen env positions exposures numReps).calls.Chain' (· < ·) := by
  have : callsInv (positions.foldl (zStackStep env exposures)
      { curTime := 0, prevAltitude := none, moves := [], calls := [] }).curTime
      (positions.foldl (zStackStep env exposures)
      { curTime := 0, prevAltitude := none, moves := [], calls := [] }).calls := by
    apply foldl_inv (fun s : GenState => callsInv s.curTime s.calls)
    · exact ⟨List.chain'_nil, by simp⟩
    · intro s' a hp
      exact zStackStep_inv env exposures hexp hm s' a hp
  simpa [zStackGen] using this.1

theorem stormInnerStep_inv (env : Env StormSeq) (target : ℚ)
    (hexp : ∀ t e, t ≤ env.expose t e)
    (st : ℚ × List (ℚ × ℚ) × List ℚ) (seq : StormSeq)
    (h : callsInv st.1 st.2.2) :
    callsInv (stormInnerStep env target st seq).1
      (stormInnerStep env target st seq).2.2 := by
  unfold stormInnerStep
  exact callsInv_append
    (lt_of_le_of_lt (hexp st.1 seq) (by norm_num [zEpsilon])) h

theorem stormStep_inv (env : Env StormSeq) (repetitions : ℕ)
    (sequences : List StormSeq) (sliceHeight : ℚ)
    (hexp : ∀ t e, t ≤ env.expose t e)
    (hm : ∀ a b, 0 ≤ (env.movementTime a b).1 ∧ 0 ≤ (env.movementTime a b).2)
    (s : GenState) (zIndex : ℕ) (h : callsInv s.curTime s.calls) :
    callsInv (stormStep env repetitions sequences sliceHeight s zIndex).curTime
      (stormStep env repetitions sequences sliceHeight s zIndex).calls := by
  unfold stormStep
  rcases s with ⟨t, prev, moves, calls⟩
  have key : ∀ (st0 : ℚ × List (ℚ × ℚ) × List ℚ), callsInv st0.1 st0.2.2 →
      callsInv ((List.range repetitions).foldl
        (fun st _ => sequences.foldl (stormInnerStep env
          (sliceHeight * (zIndex : ℚ))) st) st0).1
      ((List.range repetitions).foldl
        (fun st _ => sequences.foldl (stormInnerStep env
          (sliceHeight * (zIndex : ℚ))) st) st0).2.2 := by
    intro st0 h0
    apply foldl_inv (fun st : ℚ × List (ℚ × ℚ) × List ℚ => callsInv st.1 st.2.2) _ _ _ h0
    intro st' _ hst
    apply foldl_inv (fun st : ℚ × List (ℚ × ℚ) × List ℚ => callsInv st.1 st.2.2) _ _ _ hst
    intro st'' sq hst'
    exact stormInnerStep_inv env _ hexp st'' sq hst'
  rcases prev with _ | p
  · exact key _ (callsInv_mono (by simp) h)
  · refine key _ (callsInv_mono ?_ h)
    have := hm p (sliceHeight * (zIndex : ℚ))
    simp only
    linarith

theorem stormGen_calls_chain (env : Env StormSeq) (zHeight sliceHeight : ℚ)
    (repetitions : ℕ) (sequences : List StormSeq) (numReps : ℕ)
    (exposureSettings : List (List ℕ))
    (hexp : ∀ t e, t ≤ env.expose t e)
    (hm : ∀ a b, 0 ≤ (env.movementTime a b).1 ∧ 0 ≤ (env.movementTime a b).2) :
    (stormGen env zHeight sliceHeight repetitions sequences numReps
      exposureSettings).calls.Chain' (· < ·) := by
  have : callsInv ((List.range (⌈zHeight / sliceHeight⌉ +
      (if 1 / 10 ^ 6 < zHeight then 1 else 0)).toNat).foldl
      (stormStep env repetitions sequences sliceHeight)
      { curTime := 0, prevAltitude := none, moves := [], calls := [] }).curTime
      ((List.range (⌈zHeight / sliceHeight⌉ +
      (if 1 / 10 ^ 6 < zHeight then 1 else 0)).toNat).foldl
      (stormStep env repetitions sequences sliceHeight)
      { curTime := 0, prevAltitude := none, moves := [], calls := [] }).calls := by
    apply foldl_inv (fun s : GenState => callsInv s.curTime s.calls)
    · exact ⟨List.chain'_nil, by simp⟩
    · intro s' a hp
      exact stormStep_inv env repetitions sequences sliceHeight hexp hm s' a hp
  simpa [stormGen] using this.1

theorem rotatorGen_calls_chain (env : Env ℕ) (vStart vLessThan : ℚ) (vSteps : ℕ)
    (settlingTime : ℚ) (exposures : List ℕ)
    (hexp : ∀ t e, t ≤ env.expose t e) (hdt : 0 ≤ settlingTime) :
    (rotatorGen env vStart vLessThan vSteps settlingTime exposures).calls.Chain' (· < ·) := by
  have key : ∀ (s0 : ℚ × List (ℚ × ℚ) × List ℚ), callsInv s0.1 s0.2.2 →
      callsInv ((List.range vSteps).foldl
        (rotatorStep env vStart ((vLessThan - vStart) / (vSteps : ℚ))
          settlingTime exposures) s0).1
      ((List.range vSteps).foldl
        (rotatorStep env vStart ((vLessThan - vStart) / (vSteps : ℚ))
          settlingTime exposures) s0).2.2 := by
    intro s0 h0
    apply foldl_inv (fun st : ℚ × List (ℚ × ℚ) × List ℚ => callsInv st.1 st.2.2) _ _ _ h0
    intro st' a hst
    unfold rotatorStep
    simp only
    have h1 : callsInv (st'.1 + settlingTime) st'.2.2 := callsInv_mono (by linarith) hst
    have h2 := exposeFold_inv env rotatorEpsilon (by norm_num [rotatorEpsilon]) hexp
      exposures _ _ h1
    exact callsInv_mono (by linarith) h2
  have h := key (0, [], []) ⟨List.chain'_nil, by simp⟩
  simpa [rotatorGen] using h.1

/-! ### Generator claims -/

/-- Claim C6: in the Z-stack and STORM generators, `cameraReadyTime` is the
maximum (over all cameras of every exposure group) of the time at which the
camera can next expose when `numReps > 1`, and `0` otherwise; and the final
hold action of the generated table is inserted at
`max(returnTime + stabilizationTime, cameraReadyTime)`, where `returnTime`
is the time of the return move to the starting position that immediately
precedes it. -/
theorem C6_final_hold_time :
    (∀ (env : Env (List ℕ)) (positions : List ℚ) (exposures : List (List ℕ))
       (numReps : ℕ), positions ≠ [] →
      (zStackGen env positions exposures numReps).cameraReadyTime =
        (if 1 < numReps then (exposures.flatten.map env.camReady).foldl max 0 else 0) ∧
      ∃ pre returnTime,
        (zStackGen env positions exposures numReps).moves =
          pre ++ [(returnTime, positions.headD 0),
            (max (returnTime +
                (env.movementTime (positions.getLastD 0) (positions.headD 0)).2)
              ((zStackGen env positions exposures numReps).cameraReadyTime),
             positions.headD 0)]) ∧
    (∀ (env : Env StormSeq) (zHeight sliceHeight : ℚ) (repetitions : ℕ)
       (sequences : List StormSeq) (numReps : ℕ) (exposureSettings : List (List ℕ)),
      (stormGen env zHeight sliceHeight repetitions sequences numReps
          exposureSettings).cameraReadyTime =
        (if 1 < numReps then (exposureSettings.flatten.map env.camReady).foldl max 0
         else 0) ∧
      ∃ pre returnTime,
        (stormGen env zHeight sliceHeight repetitions sequences numReps
            exposureSettings).moves =
          pre ++ [(returnTime, 0),
            (max (returnTime + (env.movementTime zHeight 0).2)
              ((stormGen env zHeight sliceHeight repetitions sequences numReps
                exposureSettings).cameraReadyTime), 0)]) := by
  constructor
  · intro env positions exposures numReps _
    refine ⟨by simp only [zStackGen, camReadyFold_eq],
      (positions.foldl (zStackStep env exposures)
        { curTime := 0, prevAltitude := none, moves := [], calls := [] }).moves,
      (positions.foldl (zStackStep env exposures)
        { curTime := 0, prevAltitude := none, moves := [], calls := [] }).curTime
        + (env.movementTime (positions.getLastD 0) (positions.headD 0)).1, ?_⟩
    simp only [zStackGen, List.append_assoc, List.cons_append, List.nil_append]
  · intro env zHeight sliceHeight repetitions sequences numReps exposureSettings
    refine ⟨by simp only [stormGen, camReadyFold_eq],
      ((List.range (⌈zHeight / sliceHeight⌉ +
          (if 1 / 10 ^ 6 < zHeight then 1 else 0)).toNat).foldl
        (stormStep env repetitions sequences sliceHeight)
        { curTime := 0, prevAltitude := none, moves := [], calls := [] }).moves,
      ((List.range (⌈zHeight / sliceHeight⌉ +
          (if 1 / 10 ^ 6 < zHeight then 1 else 0)).toNat).foldl
        (stormStep env repetitions sequences sliceHeight)
        { curTime := 0, prevAltitude := none, moves := [], calls := [] }).curTime
        + (env.movementTime zHeight 0).1, ?_⟩
    simp only [stormGen, List.append_assoc, List.cons_append, List.nil_append]

/-- Witness for C6: the Z-stack part applied at a one-position stack with two
repetitions and the trivial environment. -/
theorem C6_final_hold_time_witness :
    ([0] : List ℚ) ≠ [] ∧
    ((zStackGen (trivialEnv (List ℕ)) [0] [[5]] 2).cameraReadyTime =
      (if 1 < 2 then (([[5]] : List (List ℕ)).flatten.map
        (trivialEnv (List ℕ)).camReady).foldl max 0 else 0) ∧
     ∃ pre returnTime,
       (zStackGen (trivialEnv (List ℕ)) [0] [[5]] 2).moves =
         pre ++ [(returnTime, ([0] : List ℚ).headD 0),
           (max (returnTime +
               ((trivialEnv (List ℕ)).movementTime (([0] : List ℚ).getLastD 0)
                 (([0] : List ℚ).headD 0)).2)
             ((zStackGen (trivialEnv (List ℕ)) [0] [[5]] 2).cameraReadyTime),
            ([0] : List ℚ).headD 0)]) :=
  ⟨by simp, C6_final_hold_time.1 (trivialEnv (List ℕ)) [0] [[5]] 2 (by simp)⟩

/-- Claim C7: a zero-height ("2D") STORM experiment emits stage actions for
exactly one target altitude: with `zHeight = 0` every move/hold action of
the generated table is at altitude `0` (the table's altitude column is
`[0, 0]`), matching `compute_z_positions`, which returns the single-element
list `[start]` for stack height `0`. -/
theorem C7_two_d_one_position :
    (∀ (env : Env StormSeq) (sliceHeight : ℚ) (repetitions : ℕ)
       (sequences : List StormSeq) (numReps : ℕ) (exposureSettings : List (List ℕ)),
      0 < sliceHeight →
      ((stormGen env 0 sliceHeight repetitions sequences numReps
        exposureSettings).moves.map Prod.snd) = [0, 0]) ∧
    ∀ start step : ℚ, compute_z_positions start 0 step = Except.ok [start] := by
  constructor
  · intro env sliceHeight repetitions sequences numReps exposureSettings _
    have hslices : (⌈(0:ℚ) / sliceHeight⌉ + (if 1 / 10 ^ 6 < (0:ℚ) then 1 else 0)) = 0 := by
      norm_num
    simp only [stormGen, hslices]
    simp
  · exact compute_z_positions_zero_height

/-- Witness for C7: the STORM part applied at slice height `1` with one
sequence and the trivial environment. -/
theorem C7_two_d_one_position_witness :
    (0:ℚ) < 1 ∧
    ((stormGen (trivialEnv StormSeq) 0 1 1 [(0, 0, 0)] 1 []).moves.map Prod.snd
      = [0, 0]) :=
  ⟨by norm_num,
    C7_two_d_one_position.1 (trivialEnv StormSeq) 1 1 [(0, 0, 0)] 1 [] (by norm_num)⟩

/-- Claim C8: in each of the three generators the current time is advanced
by the generator's fixed positive decimal epsilon after each `expose` call,
so — assuming `expose` returns a time no earlier than the time it is given,
and the movement/stabilization/settling times of the stage cost model are
non-negative — the times carried by distinct exposure groups in the
generated table are strictly increasing, never equal. -/
theorem C8_exposures_strictly_ordered :
    ∀ (envZ : Env (List ℕ)) (positions : List ℚ) (exposuresZ : List (List ℕ))
      (numRepsZ : ℕ)
      (envS : Env StormSeq) (zHeight sliceHeight : ℚ) (repetitions : ℕ)
      (sequences : List StormSeq) (numRepsS : ℕ) (exposureSettings : List (List ℕ))
      (envR : Env ℕ) (vStart vLessThan : ℚ) (vSteps : ℕ) (settlingTime : ℚ)
      (exposuresR : List ℕ),
      (∀ t e, t ≤ envZ.expose t e) →
      (∀ a b, 0 ≤ (envZ.movementTime a b).1 ∧ 0 ≤ (envZ.movementTime a b).2) →
      (∀ t e, t ≤ envS.expose t e) →
      (∀ a b, 0 ≤ (envS.movementTime a b).1 ∧ 0 ≤ (envS.movementTime a b).2) →
      (∀ t e, t ≤ envR.expose t e) →
      0 ≤ settlingTime →
      (zStackGen envZ positions exposuresZ numRepsZ).calls.Chain' (· < ·) ∧
      (stormGen envS zHeight sliceHeight repetitions sequences numRepsS
        exposureSettings).calls.Chain' (· < ·) ∧
      (rotatorGen envR vStart vLessThan vSteps settlingTime
        exposuresR).calls.Chain' (· < ·) := by
  intro envZ positions exposuresZ numRepsZ envS zHeight sliceHeight repetitions
    sequences numRepsS exposureSettings envR vStart vLessThan vSteps settlingTime
    exposuresR hze hzm hse hsm hre hdt
  exact ⟨zStackGen_calls_chain envZ positions exposuresZ numRepsZ hze hzm,
    stormGen_calls_chain envS zHeight sliceHeight repetitions sequences numRepsS
      exposureSettings hse hsm,
    rotatorGen_calls_chain envR vStart vLessThan vSteps settlingTime exposuresR
      hre hdt⟩

/-- Witness for C8: the ordering statement applied at trivial environments
and small concrete experiment parameters. -/
theorem C8_exposures_strictly_ordered_witness :
    (zStackGen (trivialEnv (List ℕ)) [0] [[]] 1).calls.Chain' (· < ·) ∧
    (stormGen (trivialEnv StormSeq) 0 1 1 [(0, 0, 0)] 1 []).calls.Chain' (· < ·) ∧
    (rotatorGen (trivialEnv ℕ) 0 1 0 1 []).calls.Chain' (· < ·) :=
  C8_exposures_strictly_ordered (trivialEnv (List ℕ)) [0] [[]] 1
    (trivialEnv StormSeq) 0 1 1 [(0, 0, 0)] 1 []
    (trivialEnv ℕ) 0 1 0 1 []
    (fun t e => le_refl t) (fun a b => ⟨le_refl 0, le_refl 0⟩)
    (fun t e => le_refl t) (fun a b => ⟨le_refl 0, le_refl 0⟩)
    (fun t e => le_refl t) (by norm_num)

/-! ### Helper lemmas for the rewrite hook -/

theorem mkToggles_mem (dm : ℕ) (tt : ℚ) :
    ∀ (k : ℕ) (t : ℚ), ∀ r ∈ (mkToggles dm tt t k).1,
      r.2.1 = dm ∧ r.2.2 = Payload.trigger := by
  intro k
  induction k with
  | zero => intro t r hr; simp [mkToggles] at hr
  | succ n ih =>
    intro t r hr
    simp only [mkToggles, List.mem_cons] at hr
    rcases hr with h | h
    · subst h; exact ⟨rfl, rfl⟩
    · exact ih _ r h

theorem rewriteLoop_sound (dm : ℕ) (tt : ℚ) (sequence : List ℚ) (seqLen : ℤ) :
    ∀ (rows : List Row) (lastIndex : ℤ) (t : ℚ) (proc : List (Option Row))
      (tgs : List Row) (tEnd : ℚ),
      rewriteLoop dm tt sequence seqLen rows lastIndex t =
        Except.ok (proc, tgs, tEnd) →
      (∀ r ∈ proc.reduceOption, r.2.1 ≠ dm ∨ ∃ d, r.2.2 = Payload.tup d) ∧
      (∀ r ∈ tgs, r.2.1 = dm ∧ r.2.2 = Payload.trigger) := by
  intro rows
  induction rows with
  | nil =>
    intro lastIndex t proc tgs tEnd hEq
    simp only [rewriteLoop, Except.ok.injEq, Prod.mk.injEq] at hEq
    obtain ⟨h1, h2, h3⟩ := hEq
    subst h1
    subst h2
    simp
  | cons row rest ih =>
    obtain ⟨time, hd, action⟩ := row
    intro lastIndex t proc tgs tEnd hEq
    simp only [rewriteLoop] at hEq
    split at hEq
    -- handler is the device
    · rename_i hdm
      split at hEq
      · exact absurd hEq (by simp)
      · rename_i numTriggers hnt
        split at hEq
        · exact absurd hEq (by simp)
        · rename_i out hrec
          obtain ⟨proc1, tgs1, tEnd1⟩ := out
          simp only [Except.ok.injEq, Prod.mk.injEq] at hEq
          obtain ⟨h1, h2, h3⟩ := hEq
          subst h1
          subst h2
          obtain ⟨ih1, ih2⟩ := ih _ _ _ _ _ hrec
          constructor
          · intro r hr
            cases action with
            | tup d =>
              rw [show keepRow (time, hd, Payload.tup d) =
                  some (time, hd, Payload.tup d) from rfl,
                List.reduceOption_cons_of_some] at hr
              rcases List.mem_cons.mp hr with h | h
              · subst h
                exact Or.inr ⟨d, rfl⟩
              · exact ih1 r h
            | num x =>
              rw [show keepRow (time, hd, Payload.num x) = none from rfl,
                List.reduceOption_cons_of_none] at hr
              exact ih1 r hr
            | idx n =>
              rw [show keepRow (time, hd, Payload.idx n) = none from rfl,
                List.reduceOption_cons_of_none] at hr
              exact ih1 r hr
            | pstr s =>
              rw [show keepRow (time, hd, Payload.pstr s) = none from rfl,
                List.reduceOption_cons_of_none] at hr
              exact ih1 r hr
            | trigger =>
              rw [show keepRow (time, hd, Payload.trigger) = none from rfl,
                List.reduceOption_cons_of_none] at hr
              exact ih1 r hr
          · intro r hr
            rcases List.mem_append.mp hr with h | h
            · exact mkToggles_mem dm tt _ _ r h
            · exact ih2 r h
    -- handler is another device
    · rename_i hdm
      split at hEq
      · exact absurd hEq (by simp)
      · rename_i out hrec
        obtain ⟨proc1, tgs1, tEnd1⟩ := out
        simp only [Except.ok.injEq, Prod.mk.injEq] at hEq
        obtain ⟨h1, h2, h3⟩ := hEq
        subst h1
        subst h2
        obtain ⟨ih1, ih2⟩ := ih _ _ _ _ _ hrec
        constructor
        · intro r hr
          rw [List.reduceOption_cons_of_some] at hr
          rcases List.mem_cons.mp hr with h | h
          · subst h
            exact Or.inl hdm
          · exact ih1 r h
        · exact ih2

/-! ### Rewrite-hook claims -/

/-- Claim C1 (the claim as stated is falsified by the code, which the spec's
example contradicts): the periodic-cycle scan is
`for length in range(2, len(reducedParams) // 2)`, which runs `L` over `2 ≤
L < len // 2` only — it never tries `L = len // 2`.  For the reduced
sequence `[10, 20, 10, 20]` that range is `range(2, 2)`, which is empty, so
the detected cycle length is `4` (the whole sequence), not `2` — even
though `L = 2` satisfies the scan's own test (the second conjunct): the
first two elements equal the next two. -/
theorem C1_period_scan_misses_half :
    seqLenOf [10, 20, 10, 20] = 4 ∧
    ([10, 20, 10, 20] : List ℚ).take 2 = (([10, 20, 10, 20] : List ℚ).drop 2).take 2 :=
  ⟨rfl, rfl⟩

/-- Claim C2 (the claim as stated is falsified by the code): for an integer
target-index payload with `action < lastIndex`, the code computes
`sequenceLength - lastIndex - action` instead of the wrap-around distance
`(action - lastIndex) mod sequenceLength`.  At `sequenceLength = 3`,
`lastIndex = 2`, `action = 1` the code yields `0` triggers where the
mod-distance rule requires `2`; at `sequenceLength = 4`, `lastIndex = 3`,
`action = 2` the code even yields `-1`. -/
theorem C2_trigger_count_not_mod_distance :
    numTriggersInt 3 2 1 = 0 ∧
    ((1 - 2) % 3 : ℤ) = 2 ∧
    numTriggersInt 4 3 2 = -1 :=
  ⟨rfl, by decide, rfl⟩

/-- Counterexample for C5: a table whose single entry is addressed to the
device with an unrecognized (string) payload.  `examineActions` raises no
error: it returns successfully, the entry is tombstoned and removed by
`clearBadEntries` (zero triggers are inserted for it), and only the twelve
trailing flush toggles remain — the unsupported action is silently
dropped. -/
theorem C5_unsupported_payload_counterexample :
    examineActions 1 0 [(0, 1, Payload.pstr 0)] =
      Except.ok (List.replicate 12 ((0:ℚ), 1, Payload.trigger)) ∧
    Payload.pstr 0 ∉
      (List.replicate 12 ((0:ℚ), 1, Payload.trigger)).map (fun r => r.2.2) := by
  constructor
  · simp only [examineActions, reducedOf, dedupAdj, seqLenOf, rewriteLoop,
      numTriggersOf, keepRow, wrapIndex, mkToggles]
    norm_num [List.replicate, mkToggles]
  · simp [List.replicate]

/-- Claim C5, amended (what the code actually guarantees): `examineActions`
raises no unsupported-payload error.  Whenever it returns a table, every
surviving row addressed to the device is either a tuple (calibration
marker) or an appended trigger: rows with any other payload — including
unrecognized string payloads — have been tombstoned and silently dropped,
with no error raised. -/
theorem C5_unrecognized_payload_silently_dropped (dm : ℕ) (tt : ℚ)
    (rows out : List Row) (h : examineActions dm tt rows = Except.ok out) :
    ∀ r ∈ out, r.2.1 = dm →
      (∃ d, r.2.2 = Payload.tup d) ∨ r.2.2 = Payload.trigger := by
  simp only [examineActions] at h
  split at h
  · -- early return: the table holds no entry of the device at all
    rename_i hempty
    simp only [Except.ok.injEq] at h
    subst h
    intro r hr hdm
    exfalso
    rw [List.isEmpty_iff, List.map_eq_nil_iff, List.filter_eq_nil_iff] at hempty
    exact hempty r hr (by simpa using hdm)
  · split at h
    · exact absurd h (by simp)
    · rename_i proc tgs tEnd hrec
      simp only [Except.ok.injEq] at h
      subst h
      intro r hr hdm
      obtain ⟨hproc, htgs⟩ := rewriteLoop_sound dm tt _ _ rows 0 0 proc tgs tEnd hrec
      rcases List.mem_append.mp hr with h1 | h1
      · rcases List.mem_append.mp h1 with h2 | h2
        · exact Or.inl ((hproc r h2).resolve_left (by simpa using hdm))
        · exact Or.inr (htgs r h2).2
      · exact Or.inr (mkToggles_mem dm tt 12 tEnd r h1).2

/-- Witness for the amended C5: a concrete table with one tuple marker and
one string payload addressed to the device; the run succeeds (no error), the
string row is dropped, and the amended statement holds of the output. -/
theorem C5_unrecognized_payload_silently_dropped_witness :
    examineActions 1 0 [((0:ℚ), 1, Payload.tup [3]), ((2:ℚ), 1, Payload.pstr 0)] =
      Except.ok ([((0:ℚ), 1, Payload.tup [3])] ++ (mkToggles 1 0 2 12).1) ∧
    ∀ r ∈ ([((0:ℚ), 1, Payload.tup [3])] ++ (mkToggles 1 0 2 12).1), r.2.1 = 1 →
      (∃ d, r.2.2 = Payload.tup d) ∨ r.2.2 = Payload.trigger := by
  constructor
  · simp only [examineActions, reducedOf, dedupAdj, seqLenOf, rewriteLoop,
      numTriggersOf, keepRow, wrapIndex, mkToggles]
    norm_num [mkToggles]
  · intro r hr hdm
    exact C5_unrecognized_payload_silently_dropped 1 0
      [((0:ℚ), 1, Payload.tup [3]), ((2:ℚ), 1, Payload.pstr 0)] _
      (by simp only [examineActions, reducedOf, dedupAdj, seqLenOf, rewriteLoop,
            numTriggersOf, keepRow, wrapIndex, mkToggles]
          norm_num [mkToggles]) r hr hdm

/-- Claim C10: if no entry of the table is addressed to the device itself,
`examineActions` returns immediately and the table is completely unchanged —
no entries added, removed, replaced or tombstoned, and no trailing flush
toggles appended. -/
theorem C10_no_device_rows_unchanged (dm : ℕ) (toggleTime : ℚ) (rows : List Row)
    (h : ∀ r ∈ rows, r.2.1 ≠ dm) :
    examineActions dm toggleTime rows = Except.ok rows := by
  unfold examineActions
  have hf : (rows.filter fun r => r.2.1 == dm) = [] := by
    rw [List.filter_eq_nil_iff]
    intro a ha
    simpa using h a ha
  simp [hf]

/-- Witness for C10: a one-row table addressed to another handler is
returned unchanged. -/
theorem C10_no_device_rows_unchanged_witness :
    (∀ r ∈ [((0:ℚ), 2, Payload.num 5)], r.2.1 ≠ 1) ∧
    examineActions 1 (1/10) [((0:ℚ), 2, Payload.num 5)] =
      Except.ok [((0:ℚ), 2, Payload.num 5)] :=
  ⟨by decide, C10_no_device_rows_unchanged 1 (1/10) [((0:ℚ), 2, Payload.num 5)] (by decide)⟩

/-! ### Interleave claim -/

/-- Claim C9 (the claim as stated is falsified by the code): `interleave`
does not merge the other table's actions element-wise.  Each loop iteration
inserts the *other table object itself* at position `i*2 + 2`.  For a
receiver holding actions `[a0, a1]` the result is
`[a0, a1, other, other]`: the receiver's own actions are not alternated
with the other table's individual actions, and the result contains elements
that are not actions at all. -/
theorem C9_interleave_inserts_table_object :
    interleave [TElem.action 0, TElem.action 1] (7:ℕ) =
      ([TElem.action 0, TElem.action 1, TElem.tableObj 7, TElem.tableObj 7] :
        List (TElem ℕ ℕ)) ∧
    ∃ e ∈ interleave [TElem.action 0, TElem.action 1] (7:ℕ),
      e.isAction = false := by
  constructor
  · rfl
  · exact ⟨TElem.tableObj 7, by decide, rfl⟩

end Cockpit
